import Mathlib

/-!
Verification of the horse-race prediction pipeline.

Shallow embedding of the numeric core of the repository:
* `src/model.py` — `softmax_stable`, the `GroupKFold` train/validation
  split used by `train_and_evaluate`;
* `src/features.py` — the race-relative z-score, form/distance bucketing
  (`pd.cut` with right-closed intervals), the rolling win-rate feature,
  and the column-level control flow of `add_rolling_win_rates`;
* `src/processing/combine.py` — `create_edge_backtest_file`'s row-wise
  edge computation and label join.

Floating-point values are modelled as real numbers (ℝ) where
transcendental functions (`exp`, `sqrt`) appear, and as rationals (ℚ)
elsewhere, so that concrete runs of the embedded code are decidable.
-/

namespace HorseModel

/-! ### `src/model.py`: `softmax_stable`

```python
def softmax_stable(x: np.ndarray) -> np.ndarray:
    x = x - np.max(x)
    exp_x = np.exp(x)
    return exp_x / np.sum(exp_x)
```
`np.max` of a nonempty array; on the empty array the Python call raises,
so `listMax [] = 0` is junk never relied on. -/

/-- `np.max` on a (nonempty) array. -/
def listMax : List ℝ → ℝ
  | [] => 0
  | x :: xs => xs.foldl max x

/-- `softmax_stable`: subtract the max, exponentiate, normalise by the sum. -/
noncomputable def softmax_stable (xs : List ℝ) : List ℝ :=
  let m := listMax xs
  let exp_x := xs.map fun x => Real.exp (x - m)
  exp_x.map fun e => e / exp_x.sum

lemma foldl_max_const (c : ℝ) : ∀ xs : List ℝ, (∀ y ∈ xs, y = c) → xs.foldl max c = c
  | [], _ => rfl
  | y :: ys, h => by
    have hy : y = c := h y (List.mem_cons_self _ _)
    have : ∀ z ∈ ys, z = c := fun z hz => h z (List.mem_cons_of_mem _ hz)
    simp [List.foldl_cons, hy, foldl_max_const c ys this]

lemma listMax_const (xs : List ℝ) (c : ℝ) (hne : xs ≠ []) (h : ∀ y ∈ xs, y = c) :
    listMax xs = c := by
  cases xs with
  | nil => exact absurd rfl hne
  | cons x t =>
    have hx : x = c := h x (List.mem_cons_self _ _)
    have ht : ∀ y ∈ t, y = c := fun y hy => h y (List.mem_cons_of_mem _ hy)
    simp [listMax, hx, foldl_max_const c t ht]

lemma sum_map_div (l : List ℝ) (c : ℝ) : (l.map fun e => e / c).sum = l.sum / c := by
  induction l with
  | nil => simp
  | cons x t ih => simp [ih, add_div]

lemma exp_list_sum_pos (xs : List ℝ) (hne : xs ≠ []) (m : ℝ) :
    0 < (xs.map fun x => Real.exp (x - m)).sum := by
  apply List.sum_pos
  · intro e he
    obtain ⟨x, _, rfl⟩ := List.mem_map.mp he
    exact Real.exp_pos _
  · simpa using hne

lemma softmax_sum_eq_one (xs : List ℝ) (hne : xs ≠ []) : (softmax_stable xs).sum = 1 := by
  unfold softmax_stable
  set exp_x := xs.map fun x => Real.exp (x - listMax xs) with hexp
  have hpos : 0 < exp_x.sum := exp_list_sum_pos xs hne _
  rw [sum_map_div, div_self (ne_of_gt hpos)]

lemma softmax_uniform (xs : List ℝ) (hne : xs ≠ []) (c : ℝ) (hc : ∀ x ∈ xs, x = c) :
    softmax_stable xs = List.replicate xs.length (1 / (xs.length : ℝ)) := by
  unfold softmax_stable
  have hmax : listMax xs = c := listMax_const xs c hne hc
  have hexp : (xs.map fun x => Real.exp (x - listMax xs)) = List.replicate xs.length 1 := by
    rw [List.eq_replicate_iff]
    refine ⟨by simp, ?_⟩
    intro e he
    obtain ⟨x, hx, rfl⟩ := List.mem_map.mp he
    rw [hc x hx, hmax, sub_self, Real.exp_zero]
  show (xs.map fun x => Real.exp (x - listMax xs)).map
      (fun e => e / (xs.map fun x => Real.exp (x - listMax xs)).sum) = _
  rw [hexp]
  have hsum : (List.replicate xs.length (1 : ℝ)).sum = (xs.length : ℝ) := by
    simp [List.sum_replicate]
  rw [hsum, List.map_replicate]

/-- C2: for every nonempty race group's score vector, the calibrated
probabilities produced by `softmax_stable` sum to 1 within tolerance 1e-9
(in fact exactly), and when all scores in the group are equal each
probability equals `1 / n` for a group of `n` entries. -/
theorem softmax_calibration_sums_to_one (xs : List ℝ) (hne : xs ≠ []) :
    |(softmax_stable xs).sum - 1| ≤ 1e-9 ∧
      ∀ c : ℝ, (∀ x ∈ xs, x = c) →
        softmax_stable xs = List.replicate xs.length (1 / (xs.length : ℝ)) := by
  constructor
  · rw [softmax_sum_eq_one xs hne]
    norm_num
  · exact fun c hc => softmax_uniform xs hne c hc

/-- Witness for C2 at the concrete group `[1, 1]`. -/
theorem softmax_calibration_sums_to_one_witness :
    (([1, 1] : List ℝ) ≠ []) ∧
      (|(softmax_stable [1, 1]).sum - 1| ≤ 1e-9 ∧
        ∀ c : ℝ, (∀ x ∈ ([1, 1] : List ℝ), x = c) →
          softmax_stable [1, 1] =
            List.replicate ([1, 1] : List ℝ).length (1 / (([1, 1] : List ℝ).length : ℝ))) :=
  ⟨by simp, softmax_calibration_sums_to_one [1, 1] (by simp)⟩

/-! ### `src/model.py`: the `GroupKFold` split inside `train_and_evaluate`

```python
gkf = GroupKFold(n_splits=num_folds)
for fold, (train_idx, val_idx) in enumerate(gkf.split(X, y, groups=race_ids)):
```
`sklearn.model_selection.GroupKFold` assigns each distinct group label to
one fold: the unique groups (sorted ascending by `np.unique`) are ordered
by their sample counts via `np.argsort(counts)[::-1]` (count descending,
ties broken toward the larger unique-group index, i.e. the larger group
label), then greedily placed on the currently lightest fold; the test
indices of fold `f` are the rows whose group landed on `f`, the train
indices are all other rows. Race ids are modelled as naturals. -/

/-- Ascending insertion used to model `np.unique`'s sorting. -/
def insertAsc (x : ℕ) : List ℕ → List ℕ
  | [] => [x]
  | y :: ys => if x ≤ y then x :: y :: ys else y :: insertAsc x ys

/-- `np.unique`: distinct group labels, sorted ascending. -/
def uniqueAsc (gs : List ℕ) : List ℕ := gs.dedup.foldr insertAsc []

/-- `np.bincount` entry: number of rows carrying group label `g`. -/
def countOf (gs : List ℕ) (g : ℕ) : ℕ := (gs.filter fun h => h = g).length

/-- Insertion step for `np.argsort(counts)[::-1]` over the ascending unique
list: order group labels by row count descending, larger label first on
ties (the reversed stable argsort order). -/
def insertDesc (gs : List ℕ) (x : ℕ) : List ℕ → List ℕ
  | [] => [x]
  | y :: ys =>
    if countOf gs y < countOf gs x ∨ (countOf gs x = countOf gs y ∧ y < x) then
      x :: y :: ys
    else y :: insertDesc gs x ys

/-- The order in which `GroupKFold` considers groups for assignment. -/
def orderedGroups (gs : List ℕ) : List ℕ := (uniqueAsc gs).foldr (insertDesc gs) []

/-- `np.argmin`: index of the first minimum of a list of fold loads. -/
def argminIdx : List ℕ → ℕ
  | [] => 0
  | [_] => 0
  | x :: y :: ys =>
    let j := argminIdx (y :: ys)
    if x ≤ (y :: ys).getD j 0 then 0 else j + 1

/-- Add weight `w` to the load of fold `i`. -/
def bumpAt (l : List ℕ) (i w : ℕ) : List ℕ :=
  l.enum.map fun p => if p.1 = i then p.2 + w else p.2

/-- Greedy assignment loop of `GroupKFold`: returns `(group, fold)` pairs. -/
def assignFoldsAux (gs : List ℕ) : List ℕ → List ℕ → List (ℕ × ℕ) → List (ℕ × ℕ)
  | [], _, acc => acc
  | g :: rest, loads, acc =>
    let f := argminIdx loads
    assignFoldsAux gs rest (bumpAt loads f (countOf gs g)) (acc ++ [(g, f)])

/-- The fold assigned to each group label by `GroupKFold(n_splits)`. -/
def assignFolds (n_splits : ℕ) (gs : List ℕ) : List (ℕ × ℕ) :=
  assignFoldsAux gs (orderedGroups gs) (List.replicate n_splits 0) []

/-- Fold of a given race id (0 is junk for ids absent from the data). -/
def groupToFold (n_splits : ℕ) (gs : List ℕ) (g : ℕ) : ℕ :=
  (((assignFolds n_splits gs).find? fun p => p.1 = g).map Prod.snd).getD 0

/-- `val_idx` of fold `f`: row indices whose race id is assigned to `f`. -/
def valIdx (n_splits : ℕ) (gs : List ℕ) (f : ℕ) : List ℕ :=
  (List.range gs.length).filter fun i => groupToFold n_splits gs (gs.getD i 0) = f

/-- `train_idx` of fold `f`: all remaining row indices. -/
def trainIdx (n_splits : ℕ) (gs : List ℕ) (f : ℕ) : List ℕ :=
  (List.range gs.length).filter fun i => groupToFold n_splits gs (gs.getD i 0) ≠ f

/-- Race ids appearing in a list of row indices. -/
def raceIdsOf (gs : List ℕ) (idxs : List ℕ) : List ℕ :=
  idxs.map fun i => gs.getD i 0

/-- C1: for every number of folds, every vector of race ids, and every
fold, the set of race group identifiers appearing in that fold's training
partition is disjoint from the set appearing in its validation partition:
`GroupKFold` assigns every row of a race group to the same fold. -/
theorem train_val_race_groups_disjoint (n_splits f : ℕ) (gs : List ℕ) :
    (raceIdsOf gs (trainIdx n_splits gs f)).toFinset ∩
      (raceIdsOf gs (valIdx n_splits gs f)).toFinset = ∅ := by
  ext g
  simp only [Finset.mem_inter, List.mem_toFinset, Finset.not_mem_empty, iff_false, not_and]
  intro htr hval
  obtain ⟨i, hi, hgi⟩ := List.mem_map.mp htr
  obtain ⟨j, hj, hgj⟩ := List.mem_map.mp hval
  have h1 : groupToFold n_splits gs (gs.getD i 0) ≠ f := by
    have := (List.mem_filter.mp hi).2
    simpa using this
  have h2 : groupToFold n_splits gs (gs.getD j 0) = f := by
    have := (List.mem_filter.mp hj).2
    simpa using this
  rw [hgi] at h1
  rw [hgj] at h2
  exact h1 h2

/-! ### `src/features.py`: `add_rolling_win_rates` — the rolling statistic

```python
df[[col, "Winner"]].groupby(col)["Winner"]
    .rolling(window=50, min_periods=10).mean()
```
Pandas `rolling(window=w, min_periods=m).mean()` at position `i` of a
series averages entries `max(0, i+1-w) .. i` — a window that INCLUDES the
current entry — and yields a missing value (`none`) when the window holds
fewer than `m` entries. Per-entity series are the Winner values of the
rows with that entity id, in row order (the frame is chronologically
sorted), here modelled as `(entityId, winner)` pairs. -/

/-- `rolling(window=w, min_periods=m).mean()` of a series: entry `i` of
the result is the mean of entries `max(0, i+1-w) .. i` of `xs`, or `none`
when fewer than `m` entries are in the window. -/
def rollingMean (w m : ℕ) (xs : List ℚ) : List (Option ℚ) :=
  (List.range xs.length).map fun i =>
    let win := (xs.take (i + 1)).drop (i + 1 - w)
    if m ≤ win.length then some (win.sum / win.length) else none

/-- The Winner series of one entity (jockey or trainer), in row order. -/
def entitySeries (rows : List (ℕ × ℚ)) (e : ℕ) : List ℚ :=
  (rows.filter fun r => r.1 = e).map Prod.snd

/-- The `{col}_WinRate50` values computed by `add_rolling_win_rates` for
entity `e`: window 50, at least 10 observations. -/
def winRate50 (rows : List (ℕ × ℚ)) (e : ℕ) : List (Option ℚ) :=
  rollingMean 50 10 (entitySeries rows e)

/-- C3 fails on the code: for an entity whose first ten races are nine
losses followed by a win, the rolling win-rate attached to the tenth race
is `1/10`; flipping only that race's own Winner to a loss changes the
value to `0`. The inclusive pandas window makes the statistic depend on
the row's own outcome, so it is not the leak-safe trailing statistic the
spec requires. -/
theorem rolling_win_rate_includes_current_outcome :
    (winRate50 (List.replicate 9 (1, 0) ++ [(1, 1)]) 1).getD 9 none = some (1 / 10) ∧
      (winRate50 (List.replicate 9 (1, 0) ++ [(1, 0)]) 1).getD 9 none = some 0 := by
  constructor <;>
    norm_num [winRate50, rollingMean, entitySeries, List.replicate_succ, List.range_succ]

/-- C4 fails on the code: an entity's tenth race has only nine prior
races, yet the inclusive window already holds ten observations, so the
code attaches the numeric value `0` instead of the missing marker the
spec requires for fewer than ten prior races. (At the ninth race, with
nine inclusive observations, the value is still missing.) -/
theorem rolling_win_rate_numeric_at_nine_priors :
    (winRate50 (List.replicate 10 (1, 0)) 1).getD 9 none = some 0 ∧
      (winRate50 (List.replicate 10 (1, 0)) 1).getD 8 none = none := by
  constructor <;>
    norm_num [winRate50, rollingMean, entitySeries, List.replicate_succ, List.range_succ]

/-! ### `src/features.py`: `pd.cut` bucketing

`add_form_features` and `add_track_distance_features` discretize via
`pd.cut(x, bins, labels)`, whose default `right=True` buckets are the
right-closed intervals `(bins[i], bins[i+1]]`; values outside every
interval (including `NaN`) get a missing bucket. `add_track_distance_features`
first extracts the numeric part of the `Distance` string with the regex
`(\d+\.?\d*)` (first run of digits, optionally a dot and more digits);
strings with no digit become missing. -/

/-- `pd.cut(v, bins, labels)` with right-closed intervals: the label of
the first consecutive edge pair `(lo, hi]` containing `v`, else missing. -/
def cutRightClosed (v : ℚ) : List ℚ → List String → Option String
  | lo :: hi :: es, lab :: labs =>
    if lo < v ∧ v ≤ hi then some lab else cutRightClosed v (hi :: es) labs
  | _, _ => none

/-- `RecentRun`: `pd.cut(daysSinceLastRun, [-1, 7, 30, 90, 9999],
["<7d", "8–30d", "31–90d", "90d+"])`. -/
def RecentRun (d : ℚ) : Option String :=
  cutRightClosed d [-1, 7, 30, 90, 9999] ["<7d", "8–30d", "31–90d", "90d+"]

/-- `Distance_Bucket`: `pd.cut(Distance, [0, 1200, 1600, 2000, 2400, 3000,
np.inf], [...])`; the infinite top edge makes every value above 3000 a
`"Marathon"`. -/
def Distance_Bucket (v : ℚ) : Option String :=
  if 3000 < v then some "Marathon"
  else
    cutRightClosed v [0, 1200, 1600, 2000, 2400, 3000]
      ["Sprint", "Mile", "Intermediate", "Classic", "Long"]

/-- Value of a digit string, most significant first. -/
def digitsToNat (ds : List Char) : ℕ :=
  ds.foldl (fun a c => 10 * a + (c.toNat - 48)) 0

/-- The numeric value matched by `(\d+\.?\d*)` starting at a digit:
leading digits, then an optional dot followed by more digits. -/
def parseNumericToken (cs : List Char) : ℚ :=
  let intPart := cs.takeWhile Char.isDigit
  let rest := cs.dropWhile Char.isDigit
  let frac :=
    match rest with
    | '.' :: r => r.takeWhile Char.isDigit
    | _ => []
  (digitsToNat intPart : ℚ) + (digitsToNat frac : ℚ) / (10 : ℚ) ^ frac.length

/-- `str.extract(r"(\d+\.?\d*)")` followed by `pd.to_numeric`: the first
numeric token of the string, missing when the string has no digit. -/
def findNumericToken : List Char → Option ℚ
  | [] => none
  | c :: cs => if c.isDigit then some (parseNumericToken (c :: cs)) else findNumericToken cs

/-- Cleaned `Distance` column value of a raw distance string. -/
def extractDistance (s : String) : Option ℚ :=
  findNumericToken s.toList

/-- Raw distance string to bucket: a missing numeric value propagates to a
missing bucket (`pd.cut` maps `NaN` to `NaN`). -/
def distanceBucketOfRaw (s : String) : Option String :=
  (extractDistance s).bind Distance_Bucket

/-- C5 counterexample: "2400m" parses to 2400, but `pd.cut` with
right-closed bins puts 2400 in `(2000, 2400]`, the `"Classic"` bucket,
not `"Long"`. -/
theorem distance_2400_bucket_is_not_long :
    extractDistance "2400m" = some 2400 ∧ distanceBucketOfRaw "2400m" ≠ some "Long" := by
  constructor
  · simp +decide [extractDistance, findNumericToken, parseNumericToken, digitsToNat,
      String.toList]
  · simp +decide [distanceBucketOfRaw, extractDistance, findNumericToken, parseNumericToken,
      digitsToNat, Distance_Bucket, cutRightClosed, String.toList]

/-- C5 amended: "2400m" maps to numeric 2400 and then to bucket
`"Classic"` (the right-closed interval `(2000, 2400]`); "garbage" maps to
a missing numeric value and then to a missing bucket. -/
theorem distance_bucketing_concrete :
    extractDistance "2400m" = some 2400 ∧ distanceBucketOfRaw "2400m" = some "Classic" ∧
      extractDistance "garbage" = none ∧ distanceBucketOfRaw "garbage" = none := by
  refine ⟨?_, ?_, ?_, ?_⟩ <;>
    simp +decide [distanceBucketOfRaw, extractDistance, findNumericToken, parseNumericToken,
      digitsToNat, Distance_Bucket, cutRightClosed, String.toList]

/-- C6: `RecentRun` buckets `daysSinceLastRun` into the half-open
intervals `(-1, 7]`, `(7, 30]`, `(30, 90]`, `(90, 9999]` with labels
`<7d`, `8–30d`, `31–90d`, `90d+`. -/
theorem recent_run_half_open_buckets (d : ℚ) :
    ((-1 < d ∧ d ≤ 7) → RecentRun d = some "<7d") ∧
      ((7 < d ∧ d ≤ 30) → RecentRun d = some "8–30d") ∧
        ((30 < d ∧ d ≤ 90) → RecentRun d = some "31–90d") ∧
          ((90 < d ∧ d ≤ 9999) → RecentRun d = some "90d+") := by
  refine ⟨fun h => ?_, fun h => ?_, fun h => ?_, fun h => ?_⟩ <;>
  · simp only [RecentRun, cutRightClosed]
    split_ifs with h1 h2 h3 h4 <;>
      first
        | rfl
        | (exfalso
           rcases h with ⟨ha, hb⟩
           first
             | exact absurd ⟨by linarith, by linarith⟩ h1
             | (rcases h1 with ⟨hc, hd⟩; linarith))

/-- Witness for C6 at `d = 100`, in the `(90, 9999]` bucket. -/
theorem recent_run_half_open_buckets_witness :
    ((90 : ℚ) < 100 ∧ (100 : ℚ) ≤ 9999) ∧ RecentRun 100 = some "90d+" :=
  ⟨by norm_num, ((recent_run_half_open_buckets 100).2.2.2) (by norm_num)⟩

/-! ### `src/features.py`: column-level control flow of `add_rolling_win_rates`

```python
for col in ["JockeyID", "TrainerID"]:
    if col in df.columns and "Winner" in df.columns:
        rolling = (df[[col, "Winner"]].groupby(col)["Winner"]
                   .rolling(window=50, min_periods=10).mean()
                   .reset_index()
                   .rename(columns={"Winner": f"{col}_WinRate50"}))
        df = df.merge(rolling, on=["level_1", col], how="left")
```
`groupby(col).rolling(...)` yields a series indexed by the MultiIndex
`(col, original row index)`; `reset_index()` names the unnamed second
level `"level_1"`, so `rolling` has columns `[col, "level_1",
f"{col}_WinRate50"]`. `DataFrame.merge(on=keys)` requires every key to be
a column of BOTH frames and raises `KeyError` otherwise. Whether the
merge raises depends only on the column sets, so a frame is modelled by
its column list. -/

/-- A dataframe, modelled by its column names (the data values cannot
affect whether `add_rolling_win_rates` raises). -/
structure DF where
  cols : List String
deriving DecidableEq

/-- `DataFrame.merge(right, on=keys, how="left")`: raises `KeyError` when
a key column is absent from either frame, else yields the joined frame
whose columns are the left columns followed by the right-only columns. -/
def merge_on (left right : DF) (keys : List String) : Except String DF :=
  match keys.find? fun k => ¬(k ∈ left.cols ∧ k ∈ right.cols) with
  | some k => .error ("KeyError: " ++ k)
  | none => .ok ⟨left.cols ++ right.cols.filter fun c => c ∉ left.cols⟩

/-- Columns of the `rolling` frame produced for entity column `col`. -/
def rollingFrameCols (col : String) : List String :=
  [col, "level_1", col ++ "_WinRate50"]

/-- `add_rolling_win_rates`, at the level of columns: for each entity
column present together with `Winner`, left-merge the rolling frame on
`["level_1", col]`. -/
def add_rolling_win_rates (df : DF) : Except String DF :=
  ["JockeyID", "TrainerID"].foldlM
    (fun acc col =>
      if col ∈ acc.cols ∧ "Winner" ∈ acc.cols then
        merge_on acc ⟨rollingFrameCols col⟩ ["level_1", col]
      else .ok acc)
    df

/-- C7 fails on the code: on a standard race-entry frame (which has
`JockeyID`, `TrainerID` and `Winner` columns but no `level_1` column) the
rolling win-rate transform raises `KeyError: 'level_1'` — the merge keys
name a column the left frame does not have — so the Feature Transform
Stage does abort. -/
theorem add_rolling_win_rates_raises :
    add_rolling_win_rates
        ⟨["Race_ID", "Horse", "JockeyID", "TrainerID", "Winner", "daysSinceLastRun"]⟩ =
      .error "KeyError: level_1" := by
  rfl

/-! ### `src/features.py`: `add_race_relative_features` — the z-score

```python
df.groupby("Race_ID")["Speed_PreviousRun"].transform(
    lambda x: (x - x.mean()) / (x.std() + 1e-5))
```
`Series.std()` defaults to `ddof=1`: the SAMPLE standard deviation
`sqrt(Σ (x - mean)² / (n - 1))`, not the population one (`/ n`). A race
group is the list of `Speed_PreviousRun` values of its rows. -/

/-- Group mean of a race group's values. -/
noncomputable def listMean (xs : List ℝ) : ℝ := xs.sum / xs.length

/-- `Series.std()` (ddof = 1): sample standard deviation of the group. -/
noncomputable def sampleStd (xs : List ℝ) : ℝ :=
  Real.sqrt ((xs.map fun x => (x - listMean xs) ^ 2).sum / ((xs.length : ℝ) - 1))

/-- `z_Speed_PreviousRun` of a row with value `x` in race group `xs`. -/
noncomputable def z_Speed_PreviousRun (xs : List ℝ) (x : ℝ) : ℝ :=
  (x - listMean xs) / (sampleStd xs + 1e-5)

/-- Modelled from the spec: the z-score the spec describes, with the
POPULATION standard deviation (`Σ (x - mean)² / n`) in the denominator;
stated for comparison with the code's `z_Speed_PreviousRun`. -/
noncomputable def popStd (xs : List ℝ) : ℝ :=
  Real.sqrt ((xs.map fun x => (x - listMean xs) ^ 2).sum / (xs.length : ℝ))

/-- Modelled from the spec: z-score with population std + 1e-5. -/
noncomputable def z_spec_population (xs : List ℝ) (x : ℝ) : ℝ :=
  (x - listMean xs) / (popStd xs + 1e-5)

/-- C8 counterexample: on the race group `[0, 1]` the code's z-score of
the value 1 uses the sample standard deviation `√(1/2)`, not the
population standard deviation `1/2`, and the two quotients differ. -/
theorem zscore_differs_from_population_zscore :
    z_Speed_PreviousRun [0, 1] 1 ≠ z_spec_population [0, 1] 1 := by
  have hmean : listMean [0, 1] = 1 / 2 := by
    simp [listMean]
  have hlen : ((([0, 1] : List ℝ).length : ℝ)) = 2 := by simp
  have hsq : (([0, 1] : List ℝ).map fun x => (x - listMean [0, 1]) ^ 2).sum = 1 / 2 := by
    rw [hmean]
    norm_num [List.map_cons]
  have hsample : sampleStd [0, 1] = Real.sqrt (1 / 2) := by
    unfold sampleStd
    rw [hsq, hlen]
    norm_num
  have hpop : popStd [0, 1] = 1 / 2 := by
    unfold popStd
    rw [hsq, hlen, show (1 : ℝ) / 2 / 2 = (1 / 2) ^ 2 by norm_num,
      Real.sqrt_sq (by norm_num : (0 : ℝ) ≤ 1 / 2)]
  have hlt : (1 : ℝ) / 2 < Real.sqrt (1 / 2) := by
    refine (Real.lt_sqrt (by norm_num)).mpr ?_
    norm_num
  unfold z_Speed_PreviousRun z_spec_population
  rw [hmean, hsample, hpop]
  have hd1 : (0 : ℝ) < 1 / 2 + 1e-5 := by norm_num
  have hnum : (0 : ℝ) < 1 - 1 / 2 := by norm_num
  exact ne_of_lt (div_lt_div_of_pos_left hnum hd1 (by linarith))

/-- C8 amended: for every race group of at least 2 rows and every row
value, the z-score is the quotient of (value − group mean) by the
group's SAMPLE standard deviation (ddof = 1) plus 1e-5, and that
denominator is strictly positive, hence never zero. -/
theorem zscore_sample_std_well_defined (xs : List ℝ) (x : ℝ) (h : 2 ≤ xs.length) :
    0 < sampleStd xs + 1e-5 ∧
      z_Speed_PreviousRun xs x * (sampleStd xs + 1e-5) = x - listMean xs := by
  have hpos : 0 < sampleStd xs + 1e-5 := by
    unfold sampleStd
    positivity
  refine ⟨hpos, ?_⟩
  unfold z_Speed_PreviousRun
  rw [div_mul_cancel₀ _ (ne_of_gt hpos)]

/-- Witness for C8 on the race group `[0, 1]` with row value 1. -/
theorem zscore_sample_std_well_defined_witness :
    2 ≤ ([0, 1] : List ℝ).length ∧
      (0 < sampleStd [0, 1] + 1e-5 ∧
        z_Speed_PreviousRun [0, 1] 1 * (sampleStd [0, 1] + 1e-5) = 1 - listMean [0, 1]) :=
  ⟨by simp, zscore_sample_std_well_defined [0, 1] 1 (by simp)⟩

/-! ### `src/processing/combine.py`: `create_edge_backtest_file`

```python
df = preds.merge(market, on=["Race_ID", "Horse"], how="left")
df = df.merge(labels, on=["Race_ID", "Horse"], how="left")
df["Market_Prob"] = 1 / df["Market_Odds"]
df["Edge_Score"] = df["Predicted_Probability"] - df["Market_Prob"]
df["True_Label"] = (df["Position"] == 1).astype(int)
```
Each prediction row is left-joined with the market odds and the finishing
position on the key `(Race_ID, Horse)`; an unmatched key leaves a missing
value (`none`). `NaN == 1` is `False` in pandas, so a missing `Position`
yields `True_Label = 0`. Keys are assumed unique in the lookup tables
(one row per (race, horse)), as in the repository's data. -/

/-- A row of the predictions file. -/
structure PredRow where
  race : ℕ
  horse : ℕ
  prob : ℚ
deriving DecidableEq

/-- A row of the market-odds file. -/
structure MarketRow where
  race : ℕ
  horse : ℕ
  odds : ℚ
deriving DecidableEq

/-- A row of the labels file (`Race_ID, Horse, Position`). -/
structure LabelRow where
  race : ℕ
  horse : ℕ
  pos : ℚ
deriving DecidableEq

/-- A row of the backtest table written by `create_edge_backtest_file`. -/
structure BacktestRow where
  race : ℕ
  horse : ℕ
  prob : ℚ
  odds : Option ℚ
  marketProb : Option ℚ
  edge : Option ℚ
  trueLabel : ℕ
deriving DecidableEq

/-- Left-join lookup of the market odds of a `(Race_ID, Horse)` key. -/
def lookupOdds (market : List MarketRow) (r h : ℕ) : Option ℚ :=
  (market.find? fun m => m.race = r ∧ m.horse = h).map MarketRow.odds

/-- Left-join lookup of the finishing position of a `(Race_ID, Horse)` key. -/
def lookupPos (labels : List LabelRow) (r h : ℕ) : Option ℚ :=
  (labels.find? fun l => l.race = r ∧ l.horse = h).map LabelRow.pos

/-- `create_edge_backtest_file`, row-wise: join market odds and position
onto each prediction row, compute `Market_Prob = 1/odds`,
`Edge_Score = Predicted_Probability − Market_Prob`, and
`True_Label = (Position == 1)` as 0/1. -/
def create_edge_backtest (preds : List PredRow) (market : List MarketRow)
    (labels : List LabelRow) : List BacktestRow :=
  preds.map fun p =>
    let odds := lookupOdds market p.race p.horse
    let marketProb := odds.map fun o => 1 / o
    let edge := marketProb.map fun m => p.prob - m
    let pos := lookupPos labels p.race p.horse
    { race := p.race, horse := p.horse, prob := p.prob, odds := odds,
      marketProb := marketProb, edge := edge,
      trueLabel := if pos = some 1 then 1 else 0 }

/-- C9: in every backtest table, the edge column is row-for-row the
predicted probability minus the market-implied probability `1/odds`; in
particular a record with predicted probability 3/10 and market odds 4 has
edge score exactly 1/20 = 0.05. -/
theorem edge_score_is_prob_minus_implied :
    (∀ (preds : List PredRow) (market : List MarketRow) (labels : List LabelRow),
        (create_edge_backtest preds market labels).map BacktestRow.edge =
          preds.map fun p => (lookupOdds market p.race p.horse).map fun o => p.prob - 1 / o) ∧
      (create_edge_backtest [⟨7, 3, 3 / 10⟩] [⟨7, 3, 4⟩] []).map BacktestRow.edge =
        [some (1 / 20)] := by
  constructor
  · intro preds market labels
    simp [create_edge_backtest, Option.map_map]
    intro p _
    rfl
  · norm_num [create_edge_backtest, lookupOdds, List.find?]

/-- C10: a prediction row whose `(Race_ID, Horse)` key has no match in
the labels table (its Position is missing) receives `True_Label = 0`, not
a missing marker. -/
theorem unmatched_label_gets_true_label_zero (preds : List PredRow)
    (market : List MarketRow) (labels : List LabelRow) (b : BacktestRow)
    (hb : b ∈ create_edge_backtest preds market labels)
    (hmiss : lookupPos labels b.race b.horse = none) : b.trueLabel = 0 := by
  obtain ⟨p, _, rfl⟩ := List.mem_map.mp hb
  simp only at hmiss
  simp [hmiss]

/-- Witness for C10: a single prediction row against an empty labels
table. -/
theorem unmatched_label_gets_true_label_zero_witness :
    (⟨1, 2, 1 / 2, none, none, none, 0⟩ : BacktestRow) ∈
        create_edge_backtest [⟨1, 2, 1 / 2⟩] [] [] ∧
      lookupPos [] 1 2 = none ∧
      (⟨1, 2, 1 / 2, none, none, none, 0⟩ : BacktestRow).trueLabel = 0 :=
  ⟨by simp [create_edge_backtest, lookupOdds, lookupPos],
    rfl,
    unmatched_label_gets_true_label_zero [⟨1, 2, 1 / 2⟩] [] []
      ⟨1, 2, 1 / 2, none, none, none, 0⟩
      (by simp [create_edge_backtest, lookupOdds, lookupPos]) rfl⟩

end HorseModel
